import Mathlib

/-!
Verification of the conformal interval-estimation and adaptive-sampling core
of the confopt repository (file `confopt/estimation.py`), shallowly embedded
in Lean.

Numbers are modelled as exact rationals.  External numeric library routines
(np.exp, np.log, np.quantile, the regression estimators, the k-fold
splitter) are parameters of the embedded functions.  Python exceptions are
modelled with `Except` over an error-kind type.
-/

set_option linter.unusedVariables false

/-- Kinds of Python exception raised by the embedded code. -/
inductive PyError where
  | valueError
  | notImplementedError
  | attributeError
  deriving DecidableEq, Repr

/-- State of an Adaptive Conformal Inference controller (classes BaseACI and
ACI): target miscoverage `alpha`, step size `gamma`, current level
`alpha_t`. -/
structure ACIState where
  alpha : ℚ
  gamma : ℚ
  alpha_t : ℚ
  deriving DecidableEq, Repr

/-- `BaseACI.__init__`: `alpha_t` starts at `alpha`. -/
def BaseACI.init (alpha gamma : ℚ) : ACIState :=
  { alpha := alpha, gamma := gamma, alpha_t := alpha }

/-- `BaseACI.update` raises NotImplementedError unconditionally (abstract
method). -/
def BaseACI.update (s : ACIState) (breach_indicator : ℚ) : Except PyError ℚ :=
  Except.error PyError.notImplementedError

/-- `ACI.__init__` just delegates to the base constructor. -/
def ACI.init (alpha gamma : ℚ) : ACIState :=
  BaseACI.init alpha gamma

/-- `ACI.update`: `alpha_t += gamma * (alpha - breach_indicator)`, then
`alpha_t = max(0.01, min(alpha_t, 0.99))`.  Python mutates `self` and
returns `alpha_t`; here the updated state is returned and the return value
is its `alpha_t` field. -/
def ACI.update (s : ACIState) (breach_indicator : ℚ) : ACIState :=
  let a := s.alpha_t + s.gamma * (s.alpha - breach_indicator)
  { s with alpha_t := max 0.01 (min a 0.99) }

/-- Repeated `ACI.update` over a list of breach indicators. -/
def ACI.updates (s : ACIState) (breaches : List ℚ) : ACIState :=
  breaches.foldl ACI.update s

/-- The `alpha_t` level reached from `ACI(alpha=0.1, gamma=0.05)` after `k`
consecutive updates with breach indicator 1 (the scenario of claim C4). -/
def c4AlphaAfter (k : ℕ) : ℚ :=
  (ACI.updates (ACI.init 0.1 0.05) (List.replicate k 1)).alpha_t

/-- State of a DtACI controller: expert step-size candidates, per-expert
alpha estimates, expert weights, learning rate `eta`, exploration rate
`sigma`. -/
structure DtACIState where
  alpha : ℚ
  gamma_candidates : List ℚ
  eta : ℚ
  sigma : ℚ
  num_experts : ℕ
  alpha_t : List ℚ
  weights : List ℚ
  deriving DecidableEq, Repr

/-- The default step-size candidates of `DtACI.__init__`. -/
def dtaciDefaultGammaCandidates : List ℚ :=
  [0.001, 0.002, 0.004, 0.008, 0.016, 0.032, 0.064, 0.128]

/-- `DtACI.__init__` with its constructor validation: ValueError on
`alpha` outside (0,1), a non-positive gamma candidate, non-positive `eta`
or `sigma` outside [0,1].  Experts start with equal alpha estimates and
uniform weights. -/
def DtACI.init (alpha : ℚ) (gamma_candidates : List ℚ) (eta sigma : ℚ) :
    Except PyError DtACIState :=
  if ¬(0 < alpha ∧ alpha < 1) then Except.error PyError.valueError
  else if ∃ g ∈ gamma_candidates, g ≤ 0 then Except.error PyError.valueError
  else if eta ≤ 0 then Except.error PyError.valueError
  else if ¬(0 ≤ sigma ∧ sigma ≤ 1) then Except.error PyError.valueError
  else Except.ok
    { alpha := alpha
      gamma_candidates := gamma_candidates
      eta := eta
      sigma := sigma
      num_experts := gamma_candidates.length
      alpha_t := List.replicate gamma_candidates.length alpha
      weights := List.replicate gamma_candidates.length (1 / gamma_candidates.length) }

/-- Body of `DtACI.update` after the breach-indicator validation.  `expFn`
stands for `np.exp`.  Each expert's alpha estimate moves by its own gamma;
all weights are scaled by the same exponentiated loss, normalized and mixed
with the uniform distribution; the returned level is the weight-averaged
alpha estimate clipped to [0,1]. -/
def DtACI.updateBody (expFn : ℚ → ℚ) (s : DtACIState) (breach_indicator : ℚ) :
    DtACIState × ℚ :=
  let alpha_t := List.zipWith (fun a g => a + g * (s.alpha - breach_indicator))
    s.alpha_t s.gamma_candidates
  let losses := |s.alpha - breach_indicator|
  let scaled := s.weights.map (fun w => w * expFn (-s.eta * losses))
  let weights := scaled.map
    (fun w => (1 - s.sigma) * w / scaled.sum + s.sigma / s.num_experts)
  let final_alpha_t := (List.zipWith (fun w a => w * a) weights alpha_t).sum
  ({ s with alpha_t := alpha_t, weights := weights }, min (max final_alpha_t 0) 1)

/-- `DtACI.update`: ValueError unless the breach indicator is 0 or 1, then
the update body. -/
def DtACI.update (expFn : ℚ → ℚ) (s : DtACIState) (breach_indicator : ℚ) :
    Except PyError (DtACIState × ℚ) :=
  if breach_indicator = 0 ∨ breach_indicator = 1 then
    Except.ok (DtACI.updateBody expFn s breach_indicator)
  else Except.error PyError.valueError

/-- Repeated `DtACI.update`, propagating errors and threading the state. -/
def DtACI.runUpdates (expFn : ℚ → ℚ) (s : DtACIState) :
    List ℚ → Except PyError DtACIState
  | [] => Except.ok s
  | b :: bs =>
    match DtACI.update expFn s b with
    | Except.error e => Except.error e
    | Except.ok (s', _) => DtACI.runUpdates expFn s' bs

/-- A pair of quantile levels (class QuantileInterval). -/
structure QuantileInterval where
  lower_quantile_level : ℚ
  upper_quantile_level : ℚ
  deriving DecidableEq, Repr

/-- `QuantileInterval.to_list`: the two levels as a list. -/
def QuantileInterval.to_list (q : QuantileInterval) : List ℚ :=
  [q.lower_quantile_level, q.upper_quantile_level]

/-- A sequence of quantile intervals (class QuantileIntervalSequence). -/
structure QuantileIntervalSequence where
  quantile_interval_sequence : List QuantileInterval
  deriving DecidableEq, Repr

/-- All interval bounds of a sequence in sequence order (the list built by
the loop inside `to_flattened_list` before sorting). -/
def QuantileIntervalSequence.bounds (s : QuantileIntervalSequence) : List ℚ :=
  s.quantile_interval_sequence.flatMap QuantileInterval.to_list

/-- `QuantileIntervalSequence.to_flattened_list`: collect all bounds from
all intervals, then sort ascending (`list.sort`). -/
def QuantileIntervalSequence.to_flattened_list (s : QuantileIntervalSequence) :
    List ℚ :=
  List.insertionSort (fun a b => a ≤ b) (QuantileIntervalSequence.bounds s)

/-- `QuantileIntervalSequence.from_flattened_list`: sort the input
ascending, then pair index `i` with index `len - 1 - i` for
`i < len / 2` (Python index `-1 - i`). -/
def QuantileIntervalSequence.from_flattened_list (flattened_list : List ℚ) :
    QuantileIntervalSequence :=
  let sorted := List.insertionSort (fun a b => a ≤ b) flattened_list
  { quantile_interval_sequence :=
      (List.range (sorted.length / 2)).map (fun i =>
        { lower_quantile_level := sorted.getD i 0
          upper_quantile_level := sorted.getD (sorted.length - 1 - i) 0 }) }

/-- Python `round(x, 2)`: round to two decimal places, ties to even. -/
def round_half_even2 (x : ℚ) : ℚ :=
  let y := 100 * x
  let f := Int.floor y
  let r := y - f
  (if r < 1 / 2 then (f : ℚ)
   else if 1 / 2 < r then (f : ℚ) + 1
   else if f % 2 = 0 then (f : ℚ) else (f : ℚ) + 1) / 100

/-- The adapter frameworks selectable at sampler construction
(`Literal["ACI", "DtACI"]`). -/
inductive AdapterFramework where
  | aci
  | dtaci
  deriving DecidableEq, Repr

/-- An Adaptive Interval Controller owned by a sampler: an ACI or a DtACI
instance. -/
inductive Adapter where
  | aci : ACIState → Adapter
  | dtaci : DtACIState → Adapter
  deriving DecidableEq, Repr

/-- Polymorphic `adapter.update(breach_indicator)`: dispatch to the ACI or
DtACI update, returning the updated adapter and the returned level. -/
def Adapter.update (expFn : ℚ → ℚ) :
    Adapter → ℚ → Except PyError (Adapter × ℚ)
  | Adapter.aci s, b =>
    Except.ok (Adapter.aci (ACI.update s b), (ACI.update s b).alpha_t)
  | Adapter.dtaci s, b =>
    (DtACI.update expFn s b).map (fun p => (Adapter.dtaci p.1, p.2))

/-- The two beta-decay schedules of UCBSampler. -/
inductive BetaDecay where
  | logarithmic_growth
  | logarithmic_decay
  deriving DecidableEq, Repr

/-- State of a UCBSampler. -/
structure UCBSampler where
  beta_decay : BetaDecay
  beta : ℚ
  c : ℚ
  interval_width : ℚ
  alpha : ℚ
  adapter : Option Adapter
  quantiles : List ℚ
  t : ℕ
  deriving Repr

/-- `UCBSampler.__init__` (Python defaults: `beta_decay="logarithmic_decay"`,
`beta=1`, `c=1`, `interval_width=0.2`, `adapter_framework=None`):
`alpha = 1 - interval_width`, an adapter only when a framework is given,
symmetric quantiles, `t = 1`.  A DtACI adapter propagates any constructor
ValueError. -/
def UCBSampler.init (beta_decay : BetaDecay) (beta c interval_width : ℚ)
    (adapter_framework : Option AdapterFramework) :
    Except PyError UCBSampler :=
  let alpha := 1 - interval_width
  let mkSampler := fun (ad : Option Adapter) =>
    { beta_decay := beta_decay
      beta := beta
      c := c
      interval_width := interval_width
      alpha := alpha
      adapter := ad
      quantiles := [alpha / 2, 1 - alpha / 2]
      t := 1 : UCBSampler }
  match adapter_framework with
  | none => Except.ok (mkSampler none)
  | some AdapterFramework.aci =>
    Except.ok (mkSampler (some (Adapter.aci (ACI.init alpha 0.01))))
  | some AdapterFramework.dtaci =>
    (DtACI.init alpha dtaciDefaultGammaCandidates 0.1 0.01).map
      (fun d => mkSampler (some (Adapter.dtaci d)))

/-- `UCBSampler.fetch_alpha`. -/
def UCBSampler.fetch_alpha (u : UCBSampler) : ℚ :=
  u.alpha

/-- `UCBSampler.fetch_quantiles`: the first two stored quantile levels as a
QuantileInterval. -/
def UCBSampler.fetch_quantiles (u : UCBSampler) : QuantileInterval :=
  { lower_quantile_level := u.quantiles.getD 0 0
    upper_quantile_level := u.quantiles.getD 1 0 }

/-- `UCBSampler.update_exploration_step`; `logFn` stands for `np.log`. -/
def UCBSampler.update_exploration_step (logFn : ℚ → ℚ) (u : UCBSampler) :
    UCBSampler :=
  let beta :=
    match u.beta_decay with
    | BetaDecay.logarithmic_decay => u.c * logFn u.t / u.t
    | BetaDecay.logarithmic_growth => 2 * logFn (u.t + 1)
  { u with beta := beta, t := u.t + 1 }

/-- `UCBSampler.update_interval_width(breach)`: delegate to the adapter and
recompute the symmetric quantiles from the returned alpha.  Reading a
missing `adapter` attribute (constructed with `adapter_framework=None`) is
an AttributeError. -/
def UCBSampler.update_interval_width (expFn : ℚ → ℚ) (u : UCBSampler)
    (breach : ℚ) : Except PyError UCBSampler :=
  match u.adapter with
  | none => Except.error PyError.attributeError
  | some ad =>
    (Adapter.update expFn ad breach).map (fun p =>
      { u with
        adapter := some p.1
        alpha := p.2
        quantiles := [p.2 / 2, 1 - p.2 / 2] })

/-- State of a ThompsonSampler. -/
structure ThompsonSampler where
  n_quantiles : ℕ
  quantiles : List ℚ
  alphas : List ℚ
  adapters : Option (List Adapter)
  deriving Repr

/-- `ThompsonSampler.__init__`: ValueError on an odd quantile count;
evenly spaced rounded quantile levels, one alpha per nested symmetric pair,
adapters only when a framework is given. -/
def ThompsonSampler.init (n_quantiles : ℕ)
    (adapter_framework : Option AdapterFramework) :
    Except PyError ThompsonSampler :=
  if n_quantiles % 2 ≠ 0 then Except.error PyError.valueError
  else
    let quantiles := (List.range' 1 n_quantiles).map
      (fun i => round_half_even2 ((i : ℚ) * 1 / ((n_quantiles : ℚ) + 1)))
    let alphas := (List.range (quantiles.length / 2)).map
      (fun i => 1 - (quantiles.getD (quantiles.length - 1 - i) 0 -
        quantiles.getD i 0))
    match adapter_framework with
    | none =>
      Except.ok
        { n_quantiles := n_quantiles
          quantiles := quantiles
          alphas := alphas
          adapters := none }
    | some AdapterFramework.aci =>
      Except.ok
        { n_quantiles := n_quantiles
          quantiles := quantiles
          alphas := alphas
          adapters := some (alphas.map (fun a => Adapter.aci (ACI.init a 0.01))) }
    | some AdapterFramework.dtaci =>
      (alphas.mapM (fun a =>
          (DtACI.init a dtaciDefaultGammaCandidates 0.1 0.01).map
            Adapter.dtaci)).map
        (fun ads =>
          { n_quantiles := n_quantiles
            quantiles := quantiles
            alphas := alphas
            adapters := some ads })

/-- `ThompsonSampler.fetch_alphas`. -/
def ThompsonSampler.fetch_alphas (t : ThompsonSampler) : List ℚ :=
  t.alphas

/-- `ThompsonSampler.fetch_quantiles`: the stored levels re-paired into a
QuantileIntervalSequence. -/
def ThompsonSampler.fetch_quantiles (t : ThompsonSampler) :
    QuantileIntervalSequence :=
  QuantileIntervalSequence.from_flattened_list t.quantiles

/-- The adapter-update loop of `ThompsonSampler.update_interval_width`:
zip adapters with breach indicators, update each, collect updated adapters,
new alphas and the unsorted quantile levels. -/
def tsAdapterLoop (expFn : ℚ → ℚ) :
    List (Adapter × ℚ) → Except PyError (List Adapter × List ℚ × List ℚ)
  | [] => Except.ok ([], [], [])
  | (ad, b) :: rest =>
    match Adapter.update expFn ad b with
    | Except.error e => Except.error e
    | Except.ok (ad', a) =>
      (tsAdapterLoop expFn rest).map
        (fun r => (ad' :: r.1, a :: r.2.1, a / 2 :: (1 - a / 2) :: r.2.2))

/-- `ThompsonSampler.update_interval_width(breaches)`: one breach per
adapter, update each controller, re-sort the collected quantile levels.
Reading a missing `adapters` attribute (constructed with
`adapter_framework=None`) is an AttributeError. -/
def ThompsonSampler.update_interval_width (expFn : ℚ → ℚ)
    (t : ThompsonSampler) (breaches : List ℚ) :
    Except PyError ThompsonSampler :=
  match t.adapters with
  | none => Except.error PyError.attributeError
  | some ads =>
    (tsAdapterLoop expFn (ads.zip breaches)).map (fun r =>
      { t with
        adapters := some r.1
        alphas := r.2.1
        quantiles := List.insertionSort (fun a b => a ≤ b) r.2.2 })

/-- The sampler union `Union[UCBSampler, ThompsonSampler]` over which the
regression engines branch with `isinstance`. -/
inductive Sampler where
  | ucb : UCBSampler → Sampler
  | thompson : ThompsonSampler → Sampler
  deriving Repr

/-- The part of LocallyWeightedConformalSearcher state that its
`update_interval_width` reads: the sampler and the adjusted-prediction
matrix stored by the preceding `predict` call. -/
structure LocallyWeightedConformalSearcher where
  sampler : Sampler
  adjusted_predictions : List (List ℚ)
  deriving Repr

/-- `LocallyWeightedConformalSearcher.update_interval_width`: for a UCB
sampler the stored row at `sampled_idx` gives the interval, the breach
indicator is recomputed and fed to the sampler.  For a Thompson sampler the
whole body after reading the row is commented out in the source (TODO):
no breach is computed and the sampler is not updated. -/
def LocallyWeightedConformalSearcher.update_interval_width (expFn : ℚ → ℚ)
    (s : LocallyWeightedConformalSearcher) (sampled_idx : ℕ)
    (sampled_performance : ℚ) :
    Except PyError LocallyWeightedConformalSearcher :=
  match s.sampler with
  | Sampler.ucb u =>
    let row := s.adjusted_predictions.getD sampled_idx []
    let breach : ℚ :=
      if row.getD 0 0 ≤ sampled_performance ∧
          sampled_performance ≤ row.getD 1 0 then 0 else 1
    (UCBSampler.update_interval_width expFn u breach).map
      (fun u' => { s with sampler := Sampler.ucb u' })
  | Sampler.thompson _ => Except.ok s

/-- The ThompsonSampler produced by `ThompsonSampler(n_quantiles=4,
adapter_framework="ACI")`, used in the claim C1 theorem. -/
def c1ThompsonSampler : ThompsonSampler :=
  { n_quantiles := 4
    quantiles := [0.2, 0.4, 0.6, 0.8]
    alphas := [0.4, 0.8]
    adapters := some [Adapter.aci (ACI.init 0.4 0.01),
      Adapter.aci (ACI.init 0.8 0.01)] }

/-- Invariant of reachable DtACI states used in the weight analysis: all
expert weights are positive and the bookkeeping fields agree with the
step-size candidate list and the constructor's `sigma`. -/
def DtACI.WeightInvariant (gammas : List ℚ) (sigma : ℚ) (s : DtACIState) : Prop :=
  (∀ w ∈ s.weights, 0 < w) ∧ s.num_experts = gammas.length ∧
    s.weights.length = gammas.length ∧ s.sigma = sigma

/-- Concrete DtACI state produced by the default constructor arguments,
used in the claim C7 witness. -/
def c7WitnessState : DtACIState :=
  { alpha := 0.1
    gamma_candidates := dtaciDefaultGammaCandidates
    eta := 0.1
    sigma := 0.01
    num_experts := 8
    alpha_t := List.replicate 8 0.1
    weights := List.replicate 8 (1 / 8) }

/-- First index of an element in a list (Python `list.index`; meaningful
when the element occurs). -/
def list_index {C : Type} [DecidableEq C] (c : C) : List C → ℕ
  | [] => 0
  | x :: xs => if x = c then 0 else list_index c xs + 1

/-- The aggregation loop of `average_scores_across_folds`: walk the
(configuration, score) pairs keeping parallel lists of distinct
configurations, summed scores and fold counts; a configuration already seen
(structural equality) accumulates into its bucket, a new one is appended. -/
def asfLoop {C : Type} [DecidableEq C] :
    List (C × ℚ) → List C × List ℚ × List ℕ → List C × List ℚ × List ℕ
  | [], acc => acc
  | (cfg, s) :: rest, (acs, ascores, acounts) =>
    if cfg ∈ acs then
      let i := list_index cfg acs
      asfLoop rest (acs, ascores.set i (ascores.getD i 0 + s),
        acounts.set i (acounts.getD i 0 + 1))
    else
      asfLoop rest (acs ++ [cfg], ascores ++ [s], acounts ++ [1])

/-- `average_scores_across_folds`: aggregate scores of structurally equal
configurations, then divide each aggregate by its fold count. -/
def average_scores_across_folds {C : Type} [DecidableEq C]
    (scored_configurations : List C) (scores : List ℚ) :
    List C × List ℚ :=
  let r := asfLoop (scored_configurations.zip scores) ([], [], [])
  (r.1, List.zipWith (fun s (k : ℕ) => s / (k : ℚ)) r.2.1 r.2.2)

/-- The distinct elements of a list in order of first appearance. -/
def dedupFirst {C : Type} [DecidableEq C] (l : List C) : List C :=
  l.foldl (fun acc c => if c ∈ acc then acc else acc ++ [c]) []

/-- Sum of the scores paired with configuration `c`. -/
def sumScoresFor {C : Type} [DecidableEq C] (c : C) (ps : List (C × ℚ)) : ℚ :=
  ((ps.filter (fun p => p.1 = c)).map Prod.snd).sum

/-- Number of pairs carrying configuration `c`. -/
def countFor {C : Type} [DecidableEq C] (c : C) (ps : List (C × ℚ)) : ℕ :=
  (ps.filter (fun p => p.1 = c)).length

/-- The observable state of QuantileConformalRegression around `fit` and
`predict`: the sampler, the conformal-gating threshold, and the attributes
`fit` assigns.  Data rows are abstracted as single rationals; the fitted
quantile estimator maps a row to its list of per-quantile predictions.  The
pre-`fit` values of the assigned attributes are immaterial placeholders. -/
structure QuantileConformalRegression where
  sampler : Sampler
  n_pre_conformal_trials : ℕ
  quantiles : List ℚ
  quantile_estimator : ℚ → List ℚ
  indexed_nonconformity_scores : ℤ → List ℚ
  conformalize_predictions : Bool

/-- UCB-branch nonconformity scores on the validation split:
`max(pred[:,0] - y, y - pred[:,-1])` per example. -/
def qcrUcbScores (qe : ℚ → List ℚ) (X_val y_val : List ℚ) : List ℚ :=
  List.zipWith max
    (List.zipWith (fun x y => (qe x).getD 0 0 - y) X_val y_val)
    (List.zipWith (fun x y => y - (qe x).getLast?.getD 0) X_val y_val)

/-- Thompson-branch nonconformity scores for nested pair `i` of an
`n`-quantile sampler: `max(pred[:,i] - y, y - pred[:,n-1-i])`. -/
def qcrThompsonScores (qe : ℚ → List ℚ) (n i : ℕ) (X_val y_val : List ℚ) :
    List ℚ :=
  List.zipWith max
    (List.zipWith (fun x y => (qe x).getD i 0 - y) X_val y_val)
    (List.zipWith (fun x y => y - (qe x).getD (n - 1 - i) 0) X_val y_val)

/-- `QuantileConformalRegression.fit`.  `fitFn` stands for the external
quantile-estimator training (`initialize_quantile_estimator` plus
`QuantileGBM.fit`), mapping the data it is fitted on to a predictor.
Target quantile levels are derived from the sampler; if the combined
train+val size exceeds `n_pre_conformal_trials`, fit on train only and
compute per-quantile nonconformity scores on val (symmetric integer
keying), else fit on the pooled data and disable conformalization. -/
def QuantileConformalRegression.fit
    (fitFn : List ℚ → List ℚ → ℚ → List ℚ)
    (s : QuantileConformalRegression)
    (X_train y_train X_val y_val : List ℚ) : QuantileConformalRegression :=
  let quantiles :=
    match s.sampler with
    | Sampler.ucb u =>
      let qi := UCBSampler.fetch_quantiles u
      [qi.lower_quantile_level, 0.5, qi.upper_quantile_level]
    | Sampler.thompson t =>
      (ThompsonSampler.fetch_quantiles t).to_flattened_list
  if X_train.length + X_val.length > s.n_pre_conformal_trials then
    let qe := fitFn X_train y_train
    match s.sampler with
    | Sampler.ucb _ =>
      { s with
        quantiles := quantiles
        quantile_estimator := qe
        indexed_nonconformity_scores := fun k =>
          if k = -1 then qcrUcbScores qe X_val y_val
          else if k = 0 then qcrUcbScores qe X_val y_val
          else []
        conformalize_predictions := true }
    | Sampler.thompson t =>
      { s with
        quantiles := quantiles
        quantile_estimator := qe
        indexed_nonconformity_scores :=
          (List.range (quantiles.length / 2)).foldl
            (fun d i =>
              let sc := qcrThompsonScores qe t.n_quantiles i X_val y_val
              fun k =>
                if k = ((t.n_quantiles - 1 - i : ℕ) : ℤ) then sc
                else if k = (i : ℤ) then sc
                else d k)
            (fun _ => [])
        conformalize_predictions := true }
  else
    { s with
      quantiles := quantiles
      quantile_estimator := fitFn (X_train ++ X_val) (y_train ++ y_val)
      conformalize_predictions := false }

/-- What `QuantileConformalRegression.predict` produces: the updated
sampler, the interval-bound attributes it assigns (UCB branch), the
adjusted-prediction matrix (Thompson branch) and the returned acquisition
values. -/
structure QCRPredictOutput where
  sampler : Sampler
  lower_interval_bound : List ℚ
  upper_interval_bound : List ℚ
  adjusted_predictions : List (List ℚ)
  lower_bound : List ℚ

/-- `QuantileConformalRegression.predict`.  `quantileFn` stands for
`np.quantile`, `logFn` for `np.log` (used by the UCB exploration step) and
`rand` for the ambient `random.choice` of the Thompson branch (one chosen
column index per row).  When conformalization is off the empirical-quantile
adjustment is the constant zero. -/
def QuantileConformalRegression.predict (quantileFn : List ℚ → ℚ → ℚ)
    (logFn : ℚ → ℚ) (rand : ℕ → ℕ) (s : QuantileConformalRegression)
    (X : List ℚ) : QCRPredictOutput :=
  match s.sampler with
  | Sampler.ucb u =>
    let score_quantile :=
      if s.conformalize_predictions then
        quantileFn (s.indexed_nonconformity_scores 0)
          (UCBSampler.fetch_quantiles u).lower_quantile_level
      else 0
    let lower_interval_bound :=
      X.map (fun x => (s.quantile_estimator x).getD 0 0 - score_quantile)
    let upper_interval_bound :=
      X.map (fun x => (s.quantile_estimator x).getLast?.getD 0 + score_quantile)
    let lower_bound :=
      List.zipWith (fun x lowb =>
        (s.quantile_estimator x).getD 1 0 +
          u.beta * ((s.quantile_estimator x).getD 1 0 - lowb))
        X lower_interval_bound
    { sampler := Sampler.ucb (UCBSampler.update_exploration_step logFn u)
      lower_interval_bound := lower_interval_bound
      upper_interval_bound := upper_interval_bound
      adjusted_predictions := []
      lower_bound := lower_bound }
  | Sampler.thompson t =>
    let score_quantiles :=
      if s.conformalize_predictions then
        (List.range t.n_quantiles).map (fun (i : ℕ) =>
          let sc := quantileFn (s.indexed_nonconformity_scores (Int.ofNat i))
            ((ThompsonSampler.fetch_quantiles t).to_flattened_list.getD i 0)
          if (i : ℚ) < (t.n_quantiles : ℚ) / 2 then -sc else sc)
      else List.replicate t.n_quantiles 0
    let adjusted_predictions :=
      X.map (fun x => List.zipWith (fun p q => p + q)
        (s.quantile_estimator x) score_quantiles)
    let lower_bound :=
      (List.range X.length).map (fun i =>
        (adjusted_predictions.getD i []).getD (rand i) 0)
    { sampler := Sampler.thompson t
      lower_interval_bound := []
      upper_interval_bound := []
      adjusted_predictions := adjusted_predictions
      lower_bound := lower_bound }

/-- `QuantileConformalRegression.update_interval_width`: recompute breach
indicators from the interval attributes stored by the preceding `predict`
(passed here explicitly as `out`) against the observed performance and
delegate to the sampler. -/
def QuantileConformalRegression.update_interval_width (expFn : ℚ → ℚ)
    (s : QuantileConformalRegression) (out : QCRPredictOutput)
    (sampled_idx : ℕ) (sampled_performance : ℚ) : Except PyError Sampler :=
  match s.sampler with
  | Sampler.ucb u =>
    let lo := out.lower_interval_bound.getD sampled_idx 0
    let hi := out.upper_interval_bound.getD sampled_idx 0
    let breach : ℚ :=
      if lo ≤ sampled_performance ∧ sampled_performance ≤ hi then 0 else 1
    (UCBSampler.update_interval_width expFn u breach).map Sampler.ucb
  | Sampler.thompson t =>
    let sample_quantiles := out.adjusted_predictions.getD sampled_idx []
    let qseq := QuantileIntervalSequence.from_flattened_list sample_quantiles
    let breaches := qseq.quantile_interval_sequence.map (fun qi =>
      if qi.lower_quantile_level ≤ sampled_performance ∧
          sampled_performance ≤ qi.upper_quantile_level then (0 : ℚ) else 1)
    (ThompsonSampler.update_interval_width expFn t breaches).map
      Sampler.thompson

/-- A plain UCB sampler (the record built by the default constructor
arguments with no adapter), used in the claim C8 scenario. -/
def c8UcbSampler : UCBSampler :=
  { beta_decay := BetaDecay.logarithmic_decay
    beta := 1
    c := 1
    interval_width := 0.2
    alpha := 0.8
    adapter := none
    quantiles := [0.4, 0.6]
    t := 1 }

/-- A QuantileConformalRegression instance with the default
`n_pre_conformal_trials = 20` and the UCB sampler above, before `fit`. -/
def c8Qcr : QuantileConformalRegression :=
  { sampler := Sampler.ucb c8UcbSampler
    n_pre_conformal_trials := 20
    quantiles := []
    quantile_estimator := fun _ => []
    indexed_nonconformity_scores := fun _ => []
    conformalize_predictions := false }

/-- A concrete stand-in for the fitted three-quantile estimator used in the
claim C8 scenario: every training set yields the predictor
`x ↦ [x - 1, x, x + 1]`. -/
def c8FitFn : List ℚ → List ℚ → ℚ → List ℚ :=
  fun _ _ => fun x => [x - 1, x, x + 1]

/-- The per-configuration oracles of `cross_validate_configurations`,
standing for the external estimator machinery, grouped by the regions of
the source that the try block separates: `init_and_fit` models estimator
construction plus `model.fit` (before the try: a missing quantile
specification, an invalid configuration or a fit failure raises here);
`first_predict` models the `model.predict(X_val)` call, also before the
try; `score` models the whole scoring block inside the try (pinball or MSE
scoring, including the quantile branch's re-predictions). -/
structure CVOracles (Config Fold Model : Type) where
  init_and_fit : Config → Fold → Except PyError Model
  first_predict : Model → Fold → Except PyError (List ℚ)
  score : Model → Fold → List ℚ → Except PyError ℚ

/-- The inner configuration loop of `cross_validate_configurations` for one
fold: failures of `init_and_fit` or `first_predict` propagate; a failure
inside the scoring try-block logs a warning, drops the pair and
continues. -/
def cvFoldConfigs {Config Fold Model : Type}
    (oc : CVOracles Config Fold Model) (fold : Fold) :
    List Config → List Config × List ℚ →
      Except PyError (List Config × List ℚ)
  | [], acc => Except.ok acc
  | cfg :: rest, acc =>
    match oc.init_and_fit cfg fold with
    | Except.error e => Except.error e
    | Except.ok model =>
      match oc.first_predict model fold with
      | Except.error e => Except.error e
      | Except.ok y_pred =>
        match oc.score model fold y_pred with
        | Except.ok s => cvFoldConfigs oc fold rest (acc.1 ++ [cfg], acc.2 ++ [s])
        | Except.error _ => cvFoldConfigs oc fold rest acc

/-- The outer fold loop of `cross_validate_configurations`. -/
def cvFolds {Config Fold Model : Type}
    (oc : CVOracles Config Fold Model) (configurations : List Config) :
    List Fold → List Config × List ℚ →
      Except PyError (List Config × List ℚ)
  | [], acc => Except.ok acc
  | f :: rest, acc =>
    match cvFoldConfigs oc f configurations acc with
    | Except.error e => Except.error e
    | Except.ok acc' => cvFolds oc configurations rest acc'

/-- `cross_validate_configurations`: loop folds × configurations
accumulating scored pairs, then average across folds per configuration. -/
def cross_validate_configurations {Config Fold Model : Type}
    [DecidableEq Config] (oc : CVOracles Config Fold Model)
    (configurations : List Config) (folds : List Fold) :
    Except PyError (List Config × List ℚ) :=
  (cvFolds oc configurations folds ([], [])).map
    (fun r => average_scores_across_folds r.1 r.2)

/-- The (configuration, score) pairs whose scoring succeeds, in fold-major
iteration order, given the fitted model and first prediction of each
configuration. -/
def cvScoredPairs {Config Fold Model : Type}
    (oc : CVOracles Config Fold Model) (mfn : Config → Fold → Model)
    (pfn : Config → Fold → List ℚ) (configurations : List Config)
    (folds : List Fold) : List (Config × ℚ) :=
  folds.flatMap (fun f => configurations.filterMap (fun c =>
    (oc.score (mfn c f) f (pfn c f)).toOption.map (fun s => (c, s))))

/-- Oracles whose estimator fit always raises, used as the claim C2
counterexample. -/
def c2FitFailOracles : CVOracles ℕ ℕ ℕ :=
  { init_and_fit := fun _ _ => Except.error PyError.valueError
    first_predict := fun _ _ => Except.ok []
    score := fun _ _ _ => Except.ok 0 }

/-- Oracles whose fit and predict always succeed but whose scoring raises
exactly on the model fitted from configuration 1, used in the claim C2
witness. -/
def c2ScoreFailOracles : CVOracles ℕ ℕ ℕ :=
  { init_and_fit := fun c _ => Except.ok c
    first_predict := fun _ _ => Except.ok []
    score := fun m _ _ =>
      if m = 1 then Except.error PyError.valueError else Except.ok 2 }

/-- The loop invariant of `asfLoop` relative to the already processed
pairs: the configuration list is the first-appearance dedup of the
processed configurations, and scores/counts are the per-bucket sums and
occurrence counts. -/
def asfInvariant {C : Type} [DecidableEq C] (processed : List (C × ℚ))
    (acc : List C × List ℚ × List ℕ) : Prop :=
  acc.1 = dedupFirst (processed.map Prod.fst) ∧
    acc.2.1 = acc.1.map (fun c => sumScoresFor c processed) ∧
    acc.2.2 = acc.1.map (fun c => countFor c processed)

/-! ## Helper lemmas -/

/-- Summing an affine image of a list: scaling by `a / S` and shifting by
`c` termwise. -/
theorem sum_map_div_add (a c S : ℚ) (l : List ℚ) :
    (l.map (fun x => a * x / S + c)).sum = a * l.sum / S + l.length * c := by
  induction l with
  | nil => simp
  | cons x xs ih =>
    simp only [List.map_cons, List.sum_cons, ih, List.length_cons]
    push_cast
    ring

/-- One `DtACI.updateBody` step from an invariant state: the invariant is
preserved, the new weights sum to 1 exactly, and each new weight lies in
[sigma/K, 1] where K is the number of experts. -/
theorem dtaci_updateBody_weights (expFn : ℚ → ℚ) (gammas : List ℚ) (sigma : ℚ)
    (s : DtACIState) (b : ℚ)
    (hexp : ∀ x, 0 < expFn x) (hg : gammas ≠ [])
    (hs0 : 0 ≤ sigma) (hs1 : sigma ≤ 1)
    (hinv : DtACI.WeightInvariant gammas sigma s) :
    DtACI.WeightInvariant gammas sigma (DtACI.updateBody expFn s b).1 ∧
      (DtACI.updateBody expFn s b).1.weights.sum = 1 ∧
      ∀ w ∈ (DtACI.updateBody expFn s b).1.weights,
        sigma / gammas.length ≤ w ∧ w ≤ 1 := by
  obtain ⟨hw, hnum, hlen, hsig⟩ := hinv
  have hglen : 0 < gammas.length := List.length_pos.mpr hg
  have hglenQ : (0 : ℚ) < gammas.length := by exact_mod_cast hglen
  have hglenQ1 : (1 : ℚ) ≤ gammas.length := by exact_mod_cast hglen
  have key : (DtACI.updateBody expFn s b).1.weights =
      (s.weights.map (fun w => w * expFn (-s.eta * |s.alpha - b|))).map
        (fun w =>
          (1 - s.sigma) * w /
              (s.weights.map (fun w => w * expFn (-s.eta * |s.alpha - b|))).sum +
            s.sigma / s.num_experts) := rfl
  set scaled := s.weights.map (fun w => w * expFn (-s.eta * |s.alpha - b|)) with hscaled
  have hscaled_pos : ∀ w ∈ scaled, 0 < w := by
    intro w hw'
    obtain ⟨w0, hw0, rfl⟩ := List.mem_map.mp hw'
    exact mul_pos (hw _ hw0) (hexp _)
  have hscaled_ne : scaled ≠ [] := by
    have : scaled.length = gammas.length := by
      rw [hscaled, List.length_map, hlen]
    intro hnil
    rw [hnil] at this
    simp at this
    omega
  have hS : 0 < scaled.sum := List.sum_pos scaled hscaled_pos hscaled_ne
  have hsum : (DtACI.updateBody expFn s b).1.weights.sum = 1 := by
    rw [key]
    simp only [hsig, hnum]
    rw [sum_map_div_add]
    have hlen' : (scaled.length : ℚ) = (gammas.length : ℚ) := by
      rw [hscaled, List.length_map, hlen]
    rw [hlen']
    rw [mul_div_assoc, div_self (ne_of_gt hS)]
    rw [mul_comm ((gammas.length : ℚ)) (sigma / gammas.length),
      div_mul_cancel₀ _ (ne_of_gt hglenQ)]
    ring
  have hmem : ∀ w ∈ (DtACI.updateBody expFn s b).1.weights,
      sigma / gammas.length ≤ w ∧ w ≤ 1 ∧ 0 < w := by
    intro w' hw'
    rw [key] at hw'
    simp only [hsig, hnum] at hw'
    obtain ⟨w, hwmem, rfl⟩ := List.mem_map.mp hw'
    have hw0 : 0 < w := hscaled_pos _ hwmem
    have hwS : w ≤ scaled.sum :=
      List.single_le_sum (fun x hx => (hscaled_pos x hx).le) w hwmem
    have hfrac : w / scaled.sum ≤ 1 := (div_le_one hS).mpr hwS
    have hnonneg1 : 0 ≤ (1 - sigma) * w / scaled.sum :=
      div_nonneg (mul_nonneg (by linarith) hw0.le) hS.le
    refine ⟨le_add_of_nonneg_left hnonneg1, ?_, ?_⟩
    · have h1 : (1 - sigma) * w / scaled.sum ≤ 1 - sigma := by
        rw [mul_div_assoc]
        calc (1 - sigma) * (w / scaled.sum) ≤ (1 - sigma) * 1 := by
              exact mul_le_mul_of_nonneg_left hfrac (by linarith)
          _ = 1 - sigma := mul_one _
      have h2 : sigma / gammas.length ≤ sigma := div_le_self hs0 hglenQ1
      linarith
    · rcases lt_or_eq_of_le hs1 with hlt | heq
      · have h1 : 0 < (1 - sigma) * w / scaled.sum :=
          div_pos (mul_pos (by linarith) hw0) hS
        have h2 : 0 ≤ sigma / gammas.length := div_nonneg hs0 hglenQ.le
        linarith
      · have h2 : 0 < sigma / gammas.length := by
          rw [heq]
          positivity
        linarith
  refine ⟨⟨fun w hw' => (hmem w hw').2.2, ?_, ?_, ?_⟩, hsum,
    fun w hw' => ⟨(hmem w hw').1, (hmem w hw').2.1⟩⟩
  · simpa [DtACI.updateBody] using hnum
  · rw [key]
    simp only [List.length_map]
    rw [hscaled, List.length_map, hlen]
  · simpa [DtACI.updateBody] using hsig

/-- Chaining `DtACI.update` over a nonempty breach sequence from an
invariant state yields a state whose weights sum to 1 and lie in
[sigma/K, 1]. -/
theorem dtaci_runUpdates_weights (expFn : ℚ → ℚ) (gammas : List ℚ)
    (sigma : ℚ) (hexp : ∀ x, 0 < expFn x) (hg : gammas ≠ [])
    (hs0 : 0 ≤ sigma) (hs1 : sigma ≤ 1) :
    ∀ bs : List ℚ, bs ≠ [] → (∀ b ∈ bs, b = 0 ∨ b = 1) →
      ∀ s : DtACIState, DtACI.WeightInvariant gammas sigma s →
        ∃ s', DtACI.runUpdates expFn s bs = Except.ok s' ∧
          DtACI.WeightInvariant gammas sigma s' ∧
          s'.weights.sum = 1 ∧
          ∀ w ∈ s'.weights, sigma / gammas.length ≤ w ∧ w ≤ 1 := by
  intro bs
  induction bs with
  | nil => intro h; exact absurd rfl h
  | cons b bs ih =>
    intro _ hb s hinv
    have hupd : DtACI.update expFn s b =
        Except.ok (DtACI.updateBody expFn s b) := by
      unfold DtACI.update
      rw [if_pos (hb b (List.mem_cons_self b bs))]
    obtain ⟨hinv', hsum', hbounds'⟩ :=
      dtaci_updateBody_weights expFn gammas sigma s b hexp hg hs0 hs1 hinv
    cases bs with
    | nil =>
      refine ⟨(DtACI.updateBody expFn s b).1, ?_, hinv', hsum', hbounds'⟩
      simp [DtACI.runUpdates, hupd]
    | cons b2 bs2 =>
      have htail : ∀ x ∈ b2 :: bs2, x = 0 ∨ x = 1 := by
        intro x hx
        exact hb x (List.mem_cons_of_mem b hx)
      obtain ⟨s', hrun, hinv'', hsum'', hbounds''⟩ :=
        ih (by simp) htail (DtACI.updateBody expFn s b).1 hinv'
      refine ⟨s', ?_, hinv'', hsum'', hbounds''⟩
      simp only [DtACI.runUpdates, hupd]
      exact hrun

/-- One ACI update always lands `alpha_t` inside the clamp range. -/
theorem aci_update_alpha_t_mem (s : ACIState) (b : ℚ) :
    0.01 ≤ (ACI.update s b).alpha_t ∧ (ACI.update s b).alpha_t ≤ 0.99 := by
  refine ⟨le_max_left _ _, max_le (by norm_num) (min_le_right _ _)⟩

/-- The clamp range is preserved by any further sequence of ACI updates. -/
theorem aci_updates_preserve_bounds (breaches : List ℚ) :
    ∀ s : ACIState, 0.01 ≤ s.alpha_t ∧ s.alpha_t ≤ 0.99 →
      0.01 ≤ (ACI.updates s breaches).alpha_t ∧
        (ACI.updates s breaches).alpha_t ≤ 0.99 := by
  induction breaches with
  | nil => intro s hs; exact hs
  | cons b bs ih =>
    intro s _
    exact ih (ACI.update s b) (aci_update_alpha_t_mem s b)

/-- Flat-mapping after a map composes the functions. -/
theorem flatMap_map_comp {α β γ : Type} (f : α → β) (g : β → List γ)
    (l : List α) : (l.map f).flatMap g = l.flatMap (fun x => g (f x)) := by
  induction l with
  | nil => rfl
  | cons x xs ih => simp [ih]

/-- Reading indices `0..k-1` of a list with `getD` yields its `k`-prefix. -/
theorem map_getD_range_take (l : List ℚ) (d : ℚ) :
    ∀ k, k ≤ l.length →
      (List.range k).map (fun i => l.getD i d) = l.take k := by
  intro k
  induction k with
  | zero => simp
  | succ k ih =>
    intro hk
    rw [List.range_succ, List.map_append, ih (by omega)]
    simp only [List.map_cons, List.map_nil]
    rw [List.take_succ]
    have hk' : k < l.length := by omega
    rw [List.getD_eq_getElem l d hk']
    simp [List.getElem?_eq_getElem hk']

open List in
/-- Reading indices `len-1, len-2, ..., len-k` of a list with `getD` yields
a permutation of its last `k` elements. -/
theorem map_getD_range_rev_perm (l : List ℚ) (d : ℚ) :
    ∀ k, k ≤ l.length →
      ((List.range k).map (fun i => l.getD (l.length - 1 - i) d)).Perm
        (l.drop (l.length - k)) := by
  intro k
  induction k with
  | zero => simp
  | succ k ih =>
    intro hk
    rw [List.range_succ, List.map_append]
    simp only [List.map_cons, List.map_nil]
    have hlt : l.length - 1 - k < l.length := by omega
    have hdrop : l.drop (l.length - (k + 1)) =
        l[l.length - 1 - k] :: l.drop (l.length - k) := by
      have h1 : l.length - (k + 1) = l.length - 1 - k := by omega
      have h2 : l.length - 1 - k + 1 = l.length - k := by omega
      rw [h1, List.drop_eq_getElem_cons hlt, h2]
    rw [hdrop, List.getD_eq_getElem l d hlt]
    calc ((List.range k).map (fun i => l.getD (l.length - 1 - i) d) ++
            [l[l.length - 1 - k]]).Perm
          (l[l.length - 1 - k] ::
            (List.range k).map (fun i => l.getD (l.length - 1 - i) d)) :=
        List.perm_append_singleton _ _
      _ ~ l[l.length - 1 - k] :: l.drop (l.length - k) :=
        List.Perm.cons _ (ih (by omega))

open List in
/-- Flattening index-paired two-element lists splits into the two mapped
lists, up to permutation. -/
theorem flatMap_pair_perm (f g : ℕ → ℚ) (k : ℕ) :
    ((List.range k).flatMap (fun i => [f i, g i])).Perm
      ((List.range k).map f ++ (List.range k).map g) := by
  induction k with
  | zero => simp
  | succ k ih =>
    rw [List.range_succ]
    simp only [List.flatMap_append, List.map_append, List.flatMap_cons,
      List.flatMap_nil, List.append_nil, List.map_cons, List.map_nil]
    calc ((List.range k).flatMap (fun i => [f i, g i]) ++ [f k, g k]).Perm
          (((List.range k).map f ++ (List.range k).map g) ++ [f k, g k]) :=
        ih.append (List.Perm.refl _)
      _ = (List.range k).map f ++
            ((List.range k).map g ++ (f k :: [g k])) := by
        simp [List.append_assoc]
      _ ~ (List.range k).map f ++ (f k :: ((List.range k).map g ++ [g k])) :=
        List.Perm.append_left _ List.perm_middle
      _ = ((List.range k).map f ++ [f k]) ++ ((List.range k).map g ++ [g k]) := by
        simp [List.append_assoc]

open List in
/-- The bounds of `from_flattened_list l` are a permutation of `l` whenever
`l` has even length. -/
theorem from_flattened_bounds_perm (l : List ℚ) (h : l.length % 2 = 0) :
    (QuantileIntervalSequence.from_flattened_list l).bounds.Perm l := by
  have key : (QuantileIntervalSequence.from_flattened_list l).bounds =
      (List.range ((List.insertionSort (fun a b => a ≤ b) l).length / 2)).flatMap
        (fun i => [(List.insertionSort (fun a b => a ≤ b) l).getD i 0,
          (List.insertionSort (fun a b => a ≤ b) l).getD
            ((List.insertionSort (fun a b => a ≤ b) l).length - 1 - i) 0]) := by
    simp [QuantileIntervalSequence.bounds,
      QuantileIntervalSequence.from_flattened_list, flatMap_map_comp,
      QuantileInterval.to_list]
  rw [key]
  set sorted := List.insertionSort (fun a b => a ≤ b) l with hsorted
  have hperm : sorted.Perm l := List.perm_insertionSort _ l
  have hsl : sorted.length = l.length := hperm.length_eq
  have hk : sorted.length / 2 ≤ sorted.length := Nat.div_le_self _ _
  have h1 : (List.range (sorted.length / 2)).map (fun i => sorted.getD i 0) =
      sorted.take (sorted.length / 2) :=
    map_getD_range_take sorted 0 _ hk
  have h2 : ((List.range (sorted.length / 2)).map
        (fun i => sorted.getD (sorted.length - 1 - i) 0)).Perm
      (sorted.drop (sorted.length - sorted.length / 2)) :=
    map_getD_range_rev_perm sorted 0 _ hk
  have h3 : sorted.length - sorted.length / 2 = sorted.length / 2 := by
    omega
  calc ((List.range (sorted.length / 2)).flatMap
          (fun i => [sorted.getD i 0, sorted.getD (sorted.length - 1 - i) 0])).Perm
        ((List.range (sorted.length / 2)).map (fun i => sorted.getD i 0) ++
          (List.range (sorted.length / 2)).map
            (fun i => sorted.getD (sorted.length - 1 - i) 0)) :=
      flatMap_pair_perm _ _ _
    _ = sorted.take (sorted.length / 2) ++
          (List.range (sorted.length / 2)).map
            (fun i => sorted.getD (sorted.length - 1 - i) 0) := by rw [h1]
    _ ~ sorted.take (sorted.length / 2) ++
          sorted.drop (sorted.length - sorted.length / 2) :=
      List.Perm.append_left _ h2
    _ = sorted.take (sorted.length / 2) ++ sorted.drop (sorted.length / 2) := by
      rw [h3]
    _ = sorted := List.take_append_drop _ _
    _ ~ l := hperm

/-- A quantile-interval sequence always flattens to an even number of
bounds. -/
theorem bounds_length_even (s : QuantileIntervalSequence) :
    (QuantileIntervalSequence.bounds s).length =
      2 * s.quantile_interval_sequence.length := by
  unfold QuantileIntervalSequence.bounds
  induction s.quantile_interval_sequence with
  | nil => rfl
  | cons q qs ih =>
    simp only [List.flatMap_cons, List.length_append, ih,
      QuantileInterval.to_list, List.length_cons, List.length_nil,
      List.length_cons]
    omega

/-- Membership in the `dedupFirst` fold from any accumulator. -/
theorem mem_dedupFirst_foldl {C : Type} [DecidableEq C] (x : C) :
    ∀ (l acc : List C),
      (x ∈ l.foldl (fun acc c => if c ∈ acc then acc else acc ++ [c]) acc) ↔
        x ∈ acc ∨ x ∈ l := by
  intro l
  induction l with
  | nil => simp
  | cons a as ih =>
    intro acc
    simp only [List.foldl_cons]
    rw [ih]
    by_cases h : a ∈ acc
    · simp only [if_pos h, List.mem_cons]
      constructor
      · rintro (h1 | h1)
        · exact Or.inl h1
        · exact Or.inr (Or.inr h1)
      · rintro (h1 | rfl | h1)
        · exact Or.inl h1
        · exact Or.inl h
        · exact Or.inr h1
    · simp only [if_neg h, List.mem_append, List.mem_singleton, List.mem_cons]
      tauto

/-- An element is in `dedupFirst l` exactly when it is in `l`. -/
theorem mem_dedupFirst {C : Type} [DecidableEq C] (x : C) (l : List C) :
    x ∈ dedupFirst l ↔ x ∈ l := by
  rw [dedupFirst, mem_dedupFirst_foldl]
  simp

/-- The `dedupFirst` fold preserves `Nodup` of the accumulator. -/
theorem nodup_dedupFirst_foldl {C : Type} [DecidableEq C] :
    ∀ (l acc : List C), acc.Nodup →
      (l.foldl (fun acc c => if c ∈ acc then acc else acc ++ [c]) acc).Nodup := by
  intro l
  induction l with
  | nil => intro acc h; simpa using h
  | cons a as ih =>
    intro acc hacc
    simp only [List.foldl_cons]
    apply ih
    by_cases h : a ∈ acc
    · simpa [if_pos h] using hacc
    · rw [if_neg h]
      simp [List.nodup_append, hacc, h]

/-- `dedupFirst` lists have no duplicates. -/
theorem nodup_dedupFirst {C : Type} [DecidableEq C] (l : List C) :
    (dedupFirst l).Nodup :=
  nodup_dedupFirst_foldl l [] List.nodup_nil

/-- Processing one more element of the `dedupFirst` fold. -/
theorem dedupFirst_append_singleton {C : Type} [DecidableEq C]
    (l : List C) (c : C) :
    dedupFirst (l ++ [c]) =
      if c ∈ dedupFirst l then dedupFirst l else dedupFirst l ++ [c] := by
  rw [dedupFirst, List.foldl_append]
  rfl

/-- Reading the bucket of `cfg` out of a mapped list via `list_index`. -/
theorem getD_map_list_index {C β : Type} [DecidableEq C]
    (f : C → β) (d : β) (cfg : C) :
    ∀ acs : List C, cfg ∈ acs →
      (acs.map f).getD (list_index cfg acs) d = f cfg := by
  intro acs
  induction acs with
  | nil => intro h; simp at h
  | cons a as ih =>
    intro h
    by_cases hac : a = cfg
    · subst hac
      simp [list_index]
    · have hmem : cfg ∈ as := by
        rcases List.mem_cons.mp h with h1 | h1
        · exact absurd h1.symm hac
        · exact h1
      rw [show list_index cfg (a :: as) = list_index cfg as + 1 from by
        simp [list_index, hac]]
      simp only [List.map_cons, List.getD_cons_succ]
      exact ih hmem

/-- Updating the bucket of `cfg` in a mapped list: pointwise replacement at
the matching configuration equals `List.set` at its first index, provided
the configuration list has no duplicates. -/
theorem map_ite_eq_set {C β : Type} [DecidableEq C]
    (f : C → β) (w : β) (cfg : C) :
    ∀ acs : List C, acs.Nodup → cfg ∈ acs →
      acs.map (fun c => if cfg = c then w else f c) =
        (acs.map f).set (list_index cfg acs) w := by
  intro acs
  induction acs with
  | nil => intro _ h; simp at h
  | cons a as ih =>
    intro hnd hmem
    by_cases hac : a = cfg
    · subst hac
      have hnotin : a ∉ as := (List.nodup_cons.mp hnd).1
      rw [show list_index a (a :: as) = 0 from by simp [list_index]]
      simp only [List.map_cons, List.set_cons_zero]
      congr 1
      apply List.map_congr_left
      intro c hc
      rw [if_neg]
      intro hcc
      exact hnotin (hcc ▸ hc)
    · have hmem' : cfg ∈ as := by
        rcases List.mem_cons.mp hmem with h1 | h1
        · exact absurd h1.symm hac
        · exact h1
      have hnd' : as.Nodup := (List.nodup_cons.mp hnd).2
      rw [show list_index cfg (a :: as) = list_index cfg as + 1 from by
        simp [list_index, hac]]
      simp only [List.map_cons, List.set_cons_succ]
      rw [if_neg (fun hcc => hac hcc.symm)]
      rw [ih hnd' hmem']

/-- Appending one pair to the processed list shifts the per-configuration
score sum by the new score exactly at the new pair's configuration. -/
theorem sumScoresFor_append_single {C : Type} [DecidableEq C]
    (c cfg : C) (s : ℚ) (ps : List (C × ℚ)) :
    sumScoresFor c (ps ++ [(cfg, s)]) =
      sumScoresFor c ps + (if cfg = c then s else 0) := by
  unfold sumScoresFor
  rw [List.filter_append]
  by_cases h : cfg = c
  · simp [h]
  · simp [h]

/-- Appending one pair to the processed list shifts the per-configuration
count by one exactly at the new pair's configuration. -/
theorem countFor_append_single {C : Type} [DecidableEq C]
    (c cfg : C) (s : ℚ) (ps : List (C × ℚ)) :
    countFor c (ps ++ [(cfg, s)]) =
      countFor c ps + (if cfg = c then 1 else 0) := by
  unfold countFor
  rw [List.filter_append]
  by_cases h : cfg = c
  · simp [h]
  · simp [h]

/-- A configuration not among the processed ones has score sum zero. -/
theorem sumScoresFor_eq_zero {C : Type} [DecidableEq C]
    (c : C) (ps : List (C × ℚ)) (h : c ∉ ps.map Prod.fst) :
    sumScoresFor c ps = 0 := by
  unfold sumScoresFor
  have hfil : ps.filter (fun p => decide (p.1 = c)) = [] := by
    rw [List.filter_eq_nil_iff]
    intro p hp
    simp only [decide_eq_true_eq]
    intro hc
    exact h (hc ▸ List.mem_map_of_mem Prod.fst hp)
  rw [hfil]
  rfl

/-- A configuration not among the processed ones has count zero. -/
theorem countFor_eq_zero {C : Type} [DecidableEq C]
    (c : C) (ps : List (C × ℚ)) (h : c ∉ ps.map Prod.fst) :
    countFor c ps = 0 := by
  unfold countFor
  have hfil : ps.filter (fun p => decide (p.1 = c)) = [] := by
    rw [List.filter_eq_nil_iff]
    intro p hp
    simp only [decide_eq_true_eq]
    intro hc
    exact h (hc ▸ List.mem_map_of_mem Prod.fst hp)
  rw [hfil]
  rfl

/-- Zipping two maps of the same list pointwise. -/
theorem zipWith_map_same {C β γ δ : Type} (f : β → γ → δ)
    (g : C → β) (h : C → γ) :
    ∀ l : List C,
      List.zipWith f (l.map g) (l.map h) = l.map (fun x => f (g x) (h x)) := by
  intro l
  induction l with
  | nil => rfl
  | cons a as ih => simp [ih]

/-- The `asfLoop` invariant is maintained while consuming the remaining
pairs. -/
theorem asfLoop_invariant {C : Type} [DecidableEq C] :
    ∀ (rest processed : List (C × ℚ)) (acc : List C × List ℚ × List ℕ),
      asfInvariant processed acc →
      asfInvariant (processed ++ rest) (asfLoop rest acc) := by
  intro rest
  induction rest with
  | nil =>
    intro processed acc h
    simpa [asfLoop] using h
  | cons p rest ih =>
    obtain ⟨cfg, s⟩ := p
    intro processed acc hinv
    obtain ⟨acs, ascores, acounts⟩ := acc
    obtain ⟨h1, h2, h3⟩ := hinv
    simp only at h1 h2 h3
    have hstep : processed ++ (cfg, s) :: rest =
        (processed ++ [(cfg, s)]) ++ rest := by simp
    rw [hstep]
    have hmapfst : (processed ++ [(cfg, s)]).map Prod.fst =
        processed.map Prod.fst ++ [cfg] := by simp
    have hnd : acs.Nodup := h1 ▸ nodup_dedupFirst _
    by_cases hmem : cfg ∈ acs
    · rw [show asfLoop ((cfg, s) :: rest) (acs, ascores, acounts) =
          asfLoop rest (acs,
            ascores.set (list_index cfg acs)
              (ascores.getD (list_index cfg acs) 0 + s),
            acounts.set (list_index cfg acs)
              (acounts.getD (list_index cfg acs) 0 + 1))
        from by simp [asfLoop, hmem]]
      apply ih
      refine ⟨?_, ?_, ?_⟩
      · simp only
        rw [hmapfst, dedupFirst_append_singleton, if_pos (h1 ▸ hmem), h1]
      · simp only
        rw [h2, getD_map_list_index _ 0 cfg acs hmem]
        have hpoint : ∀ c ∈ acs,
            sumScoresFor c (processed ++ [(cfg, s)]) =
              if cfg = c then sumScoresFor cfg processed + s
              else sumScoresFor c processed := by
          intro c _
          rw [sumScoresFor_append_single]
          by_cases hc : cfg = c
          · subst hc; simp
          · simp [hc]
        rw [List.map_congr_left hpoint, map_ite_eq_set _ _ _ acs hnd hmem]
      · simp only
        rw [h3, getD_map_list_index _ 0 cfg acs hmem]
        have hpoint : ∀ c ∈ acs,
            countFor c (processed ++ [(cfg, s)]) =
              if cfg = c then countFor cfg processed + 1
              else countFor c processed := by
          intro c _
          rw [countFor_append_single]
          by_cases hc : cfg = c
          · subst hc; simp
          · simp [hc]
        rw [List.map_congr_left hpoint, map_ite_eq_set _ _ _ acs hnd hmem]
    · rw [show asfLoop ((cfg, s) :: rest) (acs, ascores, acounts) =
          asfLoop rest (acs ++ [cfg], ascores ++ [s], acounts ++ [1])
        from by simp [asfLoop, hmem]]
      apply ih
      have hnotproc : cfg ∉ processed.map Prod.fst := by
        intro hc
        exact hmem (h1 ▸ (mem_dedupFirst cfg _).mpr hc)
      refine ⟨?_, ?_, ?_⟩
      · simp only
        rw [hmapfst, dedupFirst_append_singleton,
          if_neg (fun hc => hmem (h1 ▸ hc)), h1]
      · simp only
        rw [List.map_append, h2]
        congr 1
        · apply List.map_congr_left
          intro c hc
          rw [sumScoresFor_append_single,
            if_neg (by intro hcc; exact hmem (hcc ▸ hc)), add_zero]
        · simp [sumScoresFor_append_single,
            sumScoresFor_eq_zero cfg processed hnotproc]
      · simp only
        rw [List.map_append, h3]
        congr 1
        · apply List.map_congr_left
          intro c hc
          rw [countFor_append_single,
            if_neg (by intro hcc; exact hmem (hcc ▸ hc)), add_zero]
        · simp [countFor_append_single,
            countFor_eq_zero cfg processed hnotproc]

/-- When fit and predict always succeed, the one-fold configuration loop
returns the accumulator extended by the scoring-successful pairs of that
fold. -/
theorem cvFoldConfigs_eq {Config Fold Model : Type}
    (oc : CVOracles Config Fold Model) (mfn : Config → Fold → Model)
    (pfn : Config → Fold → List ℚ)
    (hfit : ∀ c f, oc.init_and_fit c f = Except.ok (mfn c f))
    (hpred : ∀ c f, oc.first_predict (mfn c f) f = Except.ok (pfn c f))
    (f : Fold) :
    ∀ (cfgs : List Config) (acc : List Config × List ℚ),
      cvFoldConfigs oc f cfgs acc =
        Except.ok
          (acc.1 ++ (cfgs.filterMap (fun c =>
              (oc.score (mfn c f) f (pfn c f)).toOption.map
                (fun s => (c, s)))).map Prod.fst,
            acc.2 ++ (cfgs.filterMap (fun c =>
              (oc.score (mfn c f) f (pfn c f)).toOption.map
                (fun s => (c, s)))).map Prod.snd) := by
  intro cfgs
  induction cfgs with
  | nil => intro acc; simp [cvFoldConfigs]
  | cons c rest ih =>
    intro acc
    simp only [cvFoldConfigs, hfit c f, hpred c f]
    cases hsc : oc.score (mfn c f) f (pfn c f) with
    | ok s =>
      simp [ih, List.filterMap_cons, hsc, Except.toOption]
    | error e =>
      simp [ih, List.filterMap_cons, hsc, Except.toOption]

/-- When fit and predict always succeed, the fold loop returns the
accumulator extended by all scoring-successful pairs in fold-major
order. -/
theorem cvFolds_eq {Config Fold Model : Type}
    (oc : CVOracles Config Fold Model) (mfn : Config → Fold → Model)
    (pfn : Config → Fold → List ℚ)
    (hfit : ∀ c f, oc.init_and_fit c f = Except.ok (mfn c f))
    (hpred : ∀ c f, oc.first_predict (mfn c f) f = Except.ok (pfn c f))
    (cfgs : List Config) :
    ∀ (folds : List Fold) (acc : List Config × List ℚ),
      cvFolds oc cfgs folds acc =
        Except.ok
          (acc.1 ++ (cvScoredPairs oc mfn pfn cfgs folds).map Prod.fst,
            acc.2 ++ (cvScoredPairs oc mfn pfn cfgs folds).map Prod.snd) := by
  intro folds
  induction folds with
  | nil => intro acc; simp [cvFolds, cvScoredPairs]
  | cons f rest ih =>
    intro acc
    simp only [cvFolds, cvFoldConfigs_eq oc mfn pfn hfit hpred f cfgs acc, ih]
    simp [cvScoredPairs, List.append_assoc]

/-! ## Claims C3, C4, C5, C7 -/

/-- Claim C7: for every DtACI controller accepted by the constructor (so
`eta > 0`, `sigma` in [0,1], positive step-size candidates) with K experts,
after any nonempty sequence of valid updates the expert weights sum to 1
exactly and every weight lies in [sigma/K, 1].  `expFn` stands for `np.exp`
and is only assumed positive, which holds of the exponential. -/
theorem c7_dtaci_weight_normalization (expFn : ℚ → ℚ) (alpha : ℚ)
    (gammas : List ℚ) (eta sigma : ℚ) (s0 : DtACIState) (bs : List ℚ)
    (hexp : ∀ x, 0 < expFn x) (hg : gammas ≠ [])
    (hinit : DtACI.init alpha gammas eta sigma = Except.ok s0)
    (hbs : bs ≠ []) (hb : ∀ b ∈ bs, b = 0 ∨ b = 1) :
    ∃ s', DtACI.runUpdates expFn s0 bs = Except.ok s' ∧
      s'.num_experts = gammas.length ∧ s'.weights.sum = 1 ∧
      ∀ w ∈ s'.weights, sigma / gammas.length ≤ w ∧ w ≤ 1 := by
  rw [DtACI.init] at hinit
  split_ifs at hinit with h1 h2 h3 h4
  obtain ⟨hs0, hs1⟩ := h4
  have hrepl := Except.ok.inj hinit
  have hglen : 0 < gammas.length := List.length_pos.mpr hg
  have hglenQ : (0 : ℚ) < gammas.length := by exact_mod_cast hglen
  have hinv : DtACI.WeightInvariant gammas sigma s0 := by
    rw [← hrepl]
    refine ⟨?_, rfl, List.length_replicate _ _, rfl⟩
    intro w hw
    rw [List.eq_of_mem_replicate hw]
    positivity
  obtain ⟨s', hrun, hinv', hsum', hbounds'⟩ :=
    dtaci_runUpdates_weights expFn gammas sigma hexp hg hs0 hs1 bs hbs hb s0 hinv
  exact ⟨s', hrun, hinv'.2.1, hsum', hbounds'⟩

/-- Claim C7, witness: the default constructor arguments (`alpha=0.1`, the
eight default step sizes, `eta=0.1`, `sigma=0.01`) followed by one breach-1
update, with a constant positive stand-in for `np.exp`. -/
theorem c7_dtaci_weight_normalization_witness :
    DtACI.init 0.1 dtaciDefaultGammaCandidates 0.1 0.01 =
      Except.ok c7WitnessState ∧
    ∃ s', DtACI.runUpdates (fun _ => 1) c7WitnessState [1] = Except.ok s' ∧
      s'.num_experts = dtaciDefaultGammaCandidates.length ∧
      s'.weights.sum = 1 ∧
      ∀ w ∈ s'.weights,
        0.01 / dtaciDefaultGammaCandidates.length ≤ w ∧ w ≤ 1 := by
  have hinit : DtACI.init 0.1 dtaciDefaultGammaCandidates 0.1 0.01 =
      Except.ok c7WitnessState := by
    rw [DtACI.init]
    norm_num [dtaciDefaultGammaCandidates, c7WitnessState]
  refine ⟨hinit, ?_⟩
  exact c7_dtaci_weight_normalization (fun _ => 1) 0.1
    dtaciDefaultGammaCandidates 0.1 0.01 c7WitnessState [1]
    (fun _ => one_pos) (by simp [dtaciDefaultGammaCandidates]) hinit (by simp)
    (by
      intro b hb
      simp only [List.mem_singleton] at hb
      exact Or.inr hb)

open List in
/-- Claim C6: `from_flattened_list` sorts its input ascending and pairs
index i with index (len-1-i); the round trip
`from_flattened_list(to_flattened_list(s))` reproduces the same multiset of
interval bounds, and on `[0.1, 0.9, 0.3, 0.7]` it yields the intervals
[(0.1, 0.9), (0.3, 0.7)] in that order, whose `to_flattened_list` is
[0.1, 0.3, 0.7, 0.9]. -/
theorem c6_quantile_sequence_roundtrip :
    (∀ s : QuantileIntervalSequence,
      ((QuantileIntervalSequence.from_flattened_list
          (QuantileIntervalSequence.to_flattened_list s)).bounds : Multiset ℚ) =
        (QuantileIntervalSequence.bounds s : Multiset ℚ)) ∧
    QuantileIntervalSequence.from_flattened_list [0.1, 0.9, 0.3, 0.7] =
      { quantile_interval_sequence :=
          [{ lower_quantile_level := 0.1, upper_quantile_level := 0.9 },
           { lower_quantile_level := 0.3, upper_quantile_level := 0.7 }] } ∧
    (QuantileIntervalSequence.from_flattened_list
        [0.1, 0.9, 0.3, 0.7]).to_flattened_list = [0.1, 0.3, 0.7, 0.9] := by
  refine ⟨?_, ?_, ?_⟩
  · intro s
    rw [Multiset.coe_eq_coe]
    have hlen : (QuantileIntervalSequence.to_flattened_list s).length % 2 = 0 := by
      have h1 : (QuantileIntervalSequence.to_flattened_list s).length =
          (QuantileIntervalSequence.bounds s).length :=
        (List.perm_insertionSort _ _).length_eq
      rw [h1, bounds_length_even]
      omega
    calc (QuantileIntervalSequence.from_flattened_list
            (QuantileIntervalSequence.to_flattened_list s)).bounds.Perm
          (QuantileIntervalSequence.to_flattened_list s) :=
        from_flattened_bounds_perm _ hlen
      _ ~ QuantileIntervalSequence.bounds s := List.perm_insertionSort _ _
  · norm_num [QuantileIntervalSequence.from_flattened_list,
      List.insertionSort, List.orderedInsert, List.range_succ]
  · norm_num [QuantileIntervalSequence.from_flattened_list,
      QuantileIntervalSequence.to_flattened_list,
      QuantileIntervalSequence.bounds, QuantileInterval.to_list,
      List.insertionSort, List.orderedInsert, List.range_succ]

/-! ## Claims C3, C4, C5 (continued) -/

/-- Claim C3, counterexample: calling the base controller's `update`
directly does fail, but with NotImplementedError, which is not ValueError. -/
theorem c3_counterexample :
    BaseACI.update (BaseACI.init 0.1 0.01) 1 =
      Except.error PyError.notImplementedError ∧
    (Except.error PyError.notImplementedError : Except PyError ℚ) ≠
      Except.error PyError.valueError := by
  refine ⟨rfl, ?_⟩
  intro h
  exact PyError.noConfusion (Except.error.inj h)

/-- Claim C3, amended: calling `update` on the base Adaptive Interval
Controller class directly fails with a NotImplementedError (not a
ValueError). -/
theorem c3_base_update_raises (s : ACIState) (b : ℚ) :
    BaseACI.update s b = Except.error PyError.notImplementedError :=
  rfl

/-- Claim C4, counterexample: with `alpha=0.1`, `gamma=0.05` and five
consecutive breach-1 updates, `alpha_t` reaches the clamp floor 0.01 at the
second update and stays there, so the third update does not strictly
decrease it. -/
theorem c4_counterexample :
    c4AlphaAfter 2 = 0.01 ∧ c4AlphaAfter 3 = 0.01 ∧
      ¬ c4AlphaAfter 3 < c4AlphaAfter 2 := by
  refine ⟨?_, ?_, ?_⟩ <;>
    norm_num [c4AlphaAfter, ACI.updates, ACI.update, ACI.init, BaseACI.init,
      List.replicate, max_def, min_def]

/-- Claim C4, amended: with `alpha=0.1`, `gamma=0.05` and five consecutive
breach-1 updates, `alpha_t` strictly decreases at the first two updates
(0.1 to 0.055 to 0.01), is clamped at the floor 0.01 from the second update
onward, and stays bounded below by 0.01 at every step. -/
theorem c4_aci_convergence_amended :
    c4AlphaAfter 1 < c4AlphaAfter 0 ∧ c4AlphaAfter 2 < c4AlphaAfter 1 ∧
    c4AlphaAfter 2 = 0.01 ∧ c4AlphaAfter 3 = 0.01 ∧
    c4AlphaAfter 4 = 0.01 ∧ c4AlphaAfter 5 = 0.01 ∧
    0.01 ≤ c4AlphaAfter 0 ∧ 0.01 ≤ c4AlphaAfter 1 ∧ 0.01 ≤ c4AlphaAfter 2 ∧
    0.01 ≤ c4AlphaAfter 3 ∧ 0.01 ≤ c4AlphaAfter 4 ∧ 0.01 ≤ c4AlphaAfter 5 := by
  refine ⟨?_, ?_, ?_, ?_, ?_, ?_, ?_, ?_, ?_, ?_, ?_, ?_⟩ <;>
    norm_num [c4AlphaAfter, ACI.updates, ACI.update, ACI.init, BaseACI.init,
      List.replicate, max_def, min_def]

/-- Claim C5: for every ACI controller and every nonempty sequence of
breach indicators in {0,1}, after each update `alpha_t` lies in
[0.01, 0.99] (the update rule clamps into that interval and the clamp is
preserved along the sequence). -/
theorem c5_aci_alpha_t_bounds (s : ACIState) (breaches : List ℚ)
    (hne : breaches ≠ []) (hb : ∀ b ∈ breaches, b = 0 ∨ b = 1) :
    0.01 ≤ (ACI.updates s breaches).alpha_t ∧
      (ACI.updates s breaches).alpha_t ≤ 0.99 := by
  match breaches, hne with
  | b :: bs, _ =>
    have h1 := aci_update_alpha_t_mem s b
    have h2 := aci_updates_preserve_bounds bs (ACI.update s b) h1
    simpa [ACI.updates] using h2

/-- Claim C5, witness: a concrete run of three updates from
`ACI(alpha=0.1, gamma=0.01)`. -/
theorem c5_aci_alpha_t_bounds_witness :
    0.01 ≤ (ACI.updates (ACI.init 0.1 0.01) [1, 0, 1]).alpha_t ∧
      (ACI.updates (ACI.init 0.1 0.01) [1, 0, 1]).alpha_t ≤ 0.99 :=
  c5_aci_alpha_t_bounds (ACI.init 0.1 0.01) [1, 0, 1] (by simp)
    (by
      intro b hb
      simp only [List.mem_cons, List.not_mem_nil, or_false] at hb
      rcases hb with rfl | rfl | rfl
      · exact Or.inr rfl
      · exact Or.inl rfl
      · exact Or.inr rfl)

/-- Claim C10: a UCBSampler or ThompsonSampler constructed with
`adapter_framework=None` (the default) has no adapter, and any call to its
`update_interval_width` fails with an AttributeError, for every breach
input and every stand-in for `np.exp`. -/
theorem c10_missing_adapter_attribute_error :
    (∃ u, UCBSampler.init BetaDecay.logarithmic_decay 1 1 0.2 none =
        Except.ok u ∧
      u.adapter = none ∧
      ∀ (expFn : ℚ → ℚ) (b : ℚ),
        UCBSampler.update_interval_width expFn u b =
          Except.error PyError.attributeError) ∧
    (∃ t, ThompsonSampler.init 4 none = Except.ok t ∧
      t.adapters = none ∧
      ∀ (expFn : ℚ → ℚ) (bs : List ℚ),
        ThompsonSampler.update_interval_width expFn t bs =
          Except.error PyError.attributeError) := by
  constructor
  · exact ⟨_, rfl, rfl, fun expFn b => rfl⟩
  · exact ⟨_, rfl, rfl, fun expFn bs => rfl⟩

/-- Claim C1 (code bug in the LocallyWeightedConformalSearcher × Thompson
combination): `ThompsonSampler(n_quantiles=4, adapter_framework="ACI")`
yields the concrete sampler `c1ThompsonSampler`, and for the searcher whose
stored adjusted-prediction matrix is `[[0, 1, 2, 3]]`,
`update_interval_width(0, perf)` returns the state completely unchanged for
every observed performance `perf` — including values outside every stored
interval — because the Thompson branch of the method is commented out
(TODO): no breach indicator is computed and nothing is fed to the sampler's
controllers. -/
theorem c1_lw_thompson_update_noop :
    ThompsonSampler.init 4 (some AdapterFramework.aci) =
      Except.ok c1ThompsonSampler ∧
    ∀ (expFn : ℚ → ℚ) (perf : ℚ),
      LocallyWeightedConformalSearcher.update_interval_width expFn
        { sampler := Sampler.thompson c1ThompsonSampler
          adjusted_predictions := [[0, 1, 2, 3]] } 0 perf =
        Except.ok
          { sampler := Sampler.thompson c1ThompsonSampler
            adjusted_predictions := [[0, 1, 2, 3]] } := by
  constructor
  · rw [ThompsonSampler.init]
    norm_num [round_half_even2, c1ThompsonSampler, List.range',
      List.range_succ, Int.floor_eq_iff, ACI.init, BaseACI.init]
  · intro expFn perf
    rfl

/-- Claim C9: `average_scores_across_folds` groups pairs by structural
equality of the configuration, returns each distinct configuration once in
order of first appearance (no duplicates), with its score equal to the
arithmetic mean (bucket sum over bucket count) of that configuration's
scores across folds; two folds producing the identical configuration+score
pair with a constant score yield exactly one entry carrying the constant. -/
theorem c9_average_scores_across_folds :
    (∀ (C : Type) [DecidableEq C] (cfgs : List C) (scores : List ℚ),
      cfgs.length = scores.length →
      (average_scores_across_folds cfgs scores).1 = dedupFirst cfgs ∧
      (average_scores_across_folds cfgs scores).1.Nodup ∧
      (average_scores_across_folds cfgs scores).2 =
        (dedupFirst cfgs).map (fun c =>
          sumScoresFor c (cfgs.zip scores) /
            (countFor c (cfgs.zip scores) : ℚ))) ∧
    average_scores_across_folds ([7, 7] : List ℕ) [(3.5 : ℚ), 3.5] =
      ([7], [3.5]) := by
  constructor
  · intro C _ cfgs scores hlen
    have hinv0 : asfInvariant ([] : List (C × ℚ)) ([], [], []) := by
      refine ⟨?_, ?_, ?_⟩ <;> simp [dedupFirst]
    have hinv := asfLoop_invariant (cfgs.zip scores) [] ([], [], []) hinv0
    rw [List.nil_append] at hinv
    obtain ⟨h1, h2, h3⟩ := hinv
    have hfst : (cfgs.zip scores).map Prod.fst = cfgs :=
      List.map_fst_zip cfgs scores (le_of_eq hlen)
    rw [hfst] at h1
    refine ⟨?_, ?_, ?_⟩
    · simpa [average_scores_across_folds] using h1
    · have : (average_scores_across_folds cfgs scores).1 = dedupFirst cfgs := by
        simpa [average_scores_across_folds] using h1
      rw [this]
      exact nodup_dedupFirst cfgs
    · show List.zipWith _ _ _ = _
      rw [h2, h3, h1, zipWith_map_same]
  · norm_num [average_scores_across_folds, asfLoop, list_index,
      List.zip, List.zipWith, List.set, List.getD, List.getElem?_cons_zero]

/-- Claim C9, witness: three pairs over natural-number configurations with
a repeated configuration. -/
theorem c9_average_scores_across_folds_witness :
    ([1, 2, 1] : List ℕ).length = [(2 : ℚ), 4, 6].length ∧
    ((average_scores_across_folds ([1, 2, 1] : List ℕ) [(2 : ℚ), 4, 6]).1 =
        dedupFirst [1, 2, 1] ∧
      (average_scores_across_folds ([1, 2, 1] : List ℕ) [(2 : ℚ), 4, 6]).1.Nodup ∧
      (average_scores_across_folds ([1, 2, 1] : List ℕ) [(2 : ℚ), 4, 6]).2 =
        (dedupFirst [1, 2, 1]).map (fun c =>
          sumScoresFor c (([1, 2, 1] : List ℕ).zip [(2 : ℚ), 4, 6]) /
            (countFor c (([1, 2, 1] : List ℕ).zip [(2 : ℚ), 4, 6]) : ℚ))) :=
  ⟨rfl, c9_average_scores_across_folds.1 ℕ [1, 2, 1] [2, 4, 6] rfl⟩

/-- Claim C2, counterexample: a configuration whose estimator fit raises
makes the whole `cross_validate_configurations` call raise — the exception
propagates to the caller instead of being recovered locally, because
`model.fit` sits outside the try block. -/
theorem c2_counterexample :
    cross_validate_configurations c2FitFailOracles [0] [0] =
      Except.error PyError.valueError :=
  rfl

/-- Claim C2, amended: during `cross_validate_configurations`, only a
configuration whose scoring block raises is recovered locally (warning,
drop the pair, continue); when every fit and first predict succeeds the
call returns the fold-averaged scores of exactly the scoring-successful
pairs.  An exception in estimator construction/fit (or the pre-scoring
predict) propagates to the caller. -/
theorem c2_scoring_failures_dropped :
    (∀ (Config Fold Model : Type) [DecidableEq Config]
      (oc : CVOracles Config Fold Model) (mfn : Config → Fold → Model)
      (pfn : Config → Fold → List ℚ) (cfgs : List Config)
      (folds : List Fold),
      (∀ c f, oc.init_and_fit c f = Except.ok (mfn c f)) →
      (∀ c f, oc.first_predict (mfn c f) f = Except.ok (pfn c f)) →
      cross_validate_configurations oc cfgs folds =
        Except.ok (average_scores_across_folds
          ((cvScoredPairs oc mfn pfn cfgs folds).map Prod.fst)
          ((cvScoredPairs oc mfn pfn cfgs folds).map Prod.snd))) ∧
    (∀ (Config Fold Model : Type) [DecidableEq Config]
      (oc : CVOracles Config Fold Model) (c : Config) (rest : List Config)
      (f : Fold) (frest : List Fold) (e : PyError),
      oc.init_and_fit c f = Except.error e →
      cross_validate_configurations oc (c :: rest) (f :: frest) =
        Except.error e) := by
  constructor
  · intro Config Fold Model _ oc mfn pfn cfgs folds hfit hpred
    unfold cross_validate_configurations
    rw [cvFolds_eq oc mfn pfn hfit hpred cfgs folds ([], [])]
    rfl
  · intro Config Fold Model _ oc c rest f frest e hf
    simp [cross_validate_configurations, cvFolds, cvFoldConfigs, hf,
      Except.map]

/-- Claim C2, witness: oracles whose scoring raises exactly on
configuration 1 — the call succeeds and drops that pair — and oracles whose
fit raises — the call fails. -/
theorem c2_scoring_failures_dropped_witness :
    ((∀ (c f : ℕ), c2ScoreFailOracles.init_and_fit c f = Except.ok c) ∧
      (∀ (m f : ℕ), c2ScoreFailOracles.first_predict m f = Except.ok []) ∧
      cross_validate_configurations c2ScoreFailOracles [1, 2] [0] =
        Except.ok (average_scores_across_folds
          ((cvScoredPairs c2ScoreFailOracles (fun c _ => c) (fun _ _ => [])
            [1, 2] [0]).map Prod.fst)
          ((cvScoredPairs c2ScoreFailOracles (fun c _ => c) (fun _ _ => [])
            [1, 2] [0]).map Prod.snd))) ∧
    (c2FitFailOracles.init_and_fit 0 0 = Except.error PyError.valueError ∧
      cross_validate_configurations c2FitFailOracles [0, 1] [0, 1] =
        Except.error PyError.valueError) := by
  refine ⟨⟨fun c f => rfl, fun m f => rfl, ?_⟩, rfl, ?_⟩
  · exact c2_scoring_failures_dropped.1 ℕ ℕ ℕ c2ScoreFailOracles
      (fun c _ => c) (fun _ _ => []) [1, 2] [0]
      (fun c f => rfl) (fun m f => rfl)
  · exact c2_scoring_failures_dropped.2 ℕ ℕ ℕ c2FitFailOracles 0 [1] 0 [1]
      PyError.valueError rfl

/-- Adding a zero row vector leaves predictions unchanged (up to the
broadcast length). -/
theorem zipWith_add_replicate_zero :
    ∀ (l : List ℚ) (n : ℕ),
      List.zipWith (fun p q => p + q) l (List.replicate n (0 : ℚ)) =
        l.take n := by
  intro l
  induction l with
  | nil => intro n; simp
  | cons a as ih =>
    intro n
    cases n with
    | zero => simp
    | succ n => simp [List.replicate_succ, ih]

/-- Claim C8: in `QuantileConformalRegression.fit`, when the combined
train+val size exceeds `n_pre_conformal_trials` the estimator is fit on
train only, conformalization is on, and (UCB sampler) the nonconformity
scores are computed on the validation split; otherwise the estimator is
fit on the pooled data, conformalization is off, and the subsequent
`predict` applies an interval adjustment of exactly zero (UCB interval
bounds are the raw outer-quantile predictions; Thompson adjusted
predictions are the raw predictions).  In particular with
`n_pre_conformal_trials = 20` and combined size 15 the gate is off and the
bounds of the scenario estimator `x ↦ [x-1, x, x+1]` are unadjusted. -/
theorem c8_conformal_gating :
    (∀ (fitFn : List ℚ → List ℚ → ℚ → List ℚ)
      (s : QuantileConformalRegression) (X_train y_train X_val y_val : List ℚ),
      X_train.length + X_val.length > s.n_pre_conformal_trials →
      (QuantileConformalRegression.fit fitFn s X_train y_train X_val
          y_val).conformalize_predictions = true ∧
      (QuantileConformalRegression.fit fitFn s X_train y_train X_val
          y_val).quantile_estimator = fitFn X_train y_train ∧
      (∀ u, s.sampler = Sampler.ucb u →
        (QuantileConformalRegression.fit fitFn s X_train y_train X_val
            y_val).indexed_nonconformity_scores 0 =
          qcrUcbScores (fitFn X_train y_train) X_val y_val)) ∧
    (∀ (fitFn : List ℚ → List ℚ → ℚ → List ℚ)
      (s : QuantileConformalRegression) (X_train y_train X_val y_val : List ℚ),
      ¬ X_train.length + X_val.length > s.n_pre_conformal_trials →
      (QuantileConformalRegression.fit fitFn s X_train y_train X_val
          y_val).conformalize_predictions = false ∧
      (QuantileConformalRegression.fit fitFn s X_train y_train X_val
          y_val).quantile_estimator =
        fitFn (X_train ++ X_val) (y_train ++ y_val) ∧
      (∀ (quantileFn : List ℚ → ℚ → ℚ) (logFn : ℚ → ℚ) (rand : ℕ → ℕ)
        (X : List ℚ),
        (∀ u, s.sampler = Sampler.ucb u →
          (QuantileConformalRegression.predict quantileFn logFn rand
              (QuantileConformalRegression.fit fitFn s X_train y_train X_val
                y_val) X).lower_interval_bound =
            X.map (fun x =>
              (fitFn (X_train ++ X_val) (y_train ++ y_val) x).getD 0 0) ∧
          (QuantileConformalRegression.predict quantileFn logFn rand
              (QuantileConformalRegression.fit fitFn s X_train y_train X_val
                y_val) X).upper_interval_bound =
            X.map (fun x =>
              (fitFn (X_train ++ X_val) (y_train ++ y_val) x).getLast?.getD 0)) ∧
        (∀ t, s.sampler = Sampler.thompson t →
          (QuantileConformalRegression.predict quantileFn logFn rand
              (QuantileConformalRegression.fit fitFn s X_train y_train X_val
                y_val) X).adjusted_predictions =
            X.map (fun x =>
              (fitFn (X_train ++ X_val) (y_train ++ y_val) x).take
                t.n_quantiles)))) ∧
    ((c8Qcr.fit c8FitFn (List.replicate 10 0) (List.replicate 10 0)
        (List.replicate 5 0) (List.replicate 5 0)).conformalize_predictions =
      false ∧
      ∀ (quantileFn : List ℚ → ℚ → ℚ) (logFn : ℚ → ℚ) (rand : ℕ → ℕ),
        (QuantileConformalRegression.predict quantileFn logFn rand
            (c8Qcr.fit c8FitFn (List.replicate 10 0) (List.replicate 10 0)
              (List.replicate 5 0) (List.replicate 5 0))
            [1, 2]).lower_interval_bound = [0, 1] ∧
        (QuantileConformalRegression.predict quantileFn logFn rand
            (c8Qcr.fit c8FitFn (List.replicate 10 0) (List.replicate 10 0)
              (List.replicate 5 0) (List.replicate 5 0))
            [1, 2]).upper_interval_bound = [2, 3]) := by
  refine ⟨?_, ?_, ?_, ?_⟩
  · intro fitFn s X_train y_train X_val y_val h
    refine ⟨?_, ?_, ?_⟩
    · cases hs : s.sampler <;>
        simp [QuantileConformalRegression.fit, hs, h]
    · cases hs : s.sampler <;>
        simp [QuantileConformalRegression.fit, hs, h]
    · intro u hu
      simp [QuantileConformalRegression.fit, hu, h]
  · intro fitFn s X_train y_train X_val y_val h
    refine ⟨?_, ?_, ?_⟩
    · cases hs : s.sampler <;>
        simp [QuantileConformalRegression.fit, hs, h]
    · cases hs : s.sampler <;>
        simp [QuantileConformalRegression.fit, hs, h]
    · intro quantileFn logFn rand X
      constructor
      · intro u hu
        constructor <;>
          simp [QuantileConformalRegression.fit,
            QuantileConformalRegression.predict, hu, h]
      · intro t ht
        simp [QuantileConformalRegression.fit,
          QuantileConformalRegression.predict, ht, h,
          zipWith_add_replicate_zero]
  · simp [QuantileConformalRegression.fit, c8Qcr]
  · intro quantileFn logFn rand
    constructor <;>
      norm_num [QuantileConformalRegression.fit,
        QuantileConformalRegression.predict, c8Qcr, c8FitFn, c8UcbSampler]

/-- Claim C8, witness: the gate fires with 21 train rows and no validation
rows (21 > 20), and stays off with 10 train and 5 validation rows
(15 ≤ 20). -/
theorem c8_conformal_gating_witness :
    ((List.replicate 21 (0 : ℚ)).length + ([] : List ℚ).length >
        c8Qcr.n_pre_conformal_trials ∧
      (c8Qcr.fit c8FitFn (List.replicate 21 0) (List.replicate 21 0) []
          []).conformalize_predictions = true) ∧
    (¬ (List.replicate 10 (0 : ℚ)).length + (List.replicate 5 (0 : ℚ)).length >
        c8Qcr.n_pre_conformal_trials ∧
      (c8Qcr.fit c8FitFn (List.replicate 10 0) (List.replicate 10 0)
          (List.replicate 5 0) (List.replicate 5 0)).conformalize_predictions =
        false) := by
  constructor
  · refine ⟨by simp [c8Qcr], ?_⟩
    exact (c8_conformal_gating.1 c8FitFn c8Qcr (List.replicate 21 0)
      (List.replicate 21 0) [] [] (by simp [c8Qcr])).1
  · refine ⟨by simp [c8Qcr], ?_⟩
    exact (c8_conformal_gating.2.1 c8FitFn c8Qcr (List.replicate 10 0)
      (List.replicate 10 0) (List.replicate 5 0) (List.replicate 5 0)
      (by simp [c8Qcr])).1
